import Mathlib

/-!
Verification of the tree-walking Lox interpreter (resolver, environment,
value model, evaluator) against its natural-language specification.

The definitions below are a shallow embedding of the Rust sources:
  * `src/src/token.rs`                  — tokens and literal values
  * `src/tree_walk_lox/src/resolver.rs` — the static resolver
  * `src/src/environment.rs`            — the environment chain
  * `src/tree_walk_lox/src/value/mod.rs`, `src/src/value/function.rs`,
    `src/tree_walk_lox/src/value/class.rs` — the runtime value model
  * `src/src/interpreter.rs`            — the tree-walking evaluator

Rust's shared mutable `Arc<Mutex<…>>` environments and instances are
embedded as heaps (lists indexed by allocation order) threaded through an
explicit interpreter state; recursion is bounded by an explicit fuel
parameter (the source recurses on the host stack, spec section 5).
IEEE `f64` is embedded as a rational together with a NaN marker: the
claims under scrutiny depend on f64 only through IEEE equality (NaN is
unequal to everything, finite values compare exactly), which the model
captures; rounding and signed infinities are immaterial here and are not
modelled (non-finite arithmetic results collapse to `nan`).
-/

namespace Lox

/-- Model of Rust `f64` as used by this interpreter: a rational number or
the NaN marker. -/
inductive F64 where
  | nan
  | num (q : ℚ)
deriving DecidableEq

/-- IEEE equality on the `f64` model (Rust `PartialEq for f64`): NaN is
unequal to everything, including itself; finite values compare by value. -/
def F64.feq : F64 → F64 → Bool
  | .num a, .num b => a == b
  | _, _ => false

/-- `f64` addition on the model (exact; rounding not modelled). -/
def F64.fadd : F64 → F64 → F64
  | .num a, .num b => .num (a + b)
  | _, _ => .nan

/-- `f64` subtraction on the model. -/
def F64.fsub : F64 → F64 → F64
  | .num a, .num b => .num (a - b)
  | _, _ => .nan

/-- `f64` multiplication on the model. -/
def F64.fmul : F64 → F64 → F64
  | .num a, .num b => .num (a * b)
  | _, _ => .nan

/-- `f64` division on the model; division by zero gives a non-finite
result, collapsed to `nan` here. -/
def F64.fdiv : F64 → F64 → F64
  | .num a, .num b => if b = 0 then .nan else .num (a / b)
  | _, _ => .nan

/-- `f64` negation on the model (Rust unary `-`). -/
def F64.fneg : F64 → F64
  | .num a => .num (-a)
  | .nan => .nan

/-- `f64` strict greater-than (false on NaN operands, as in IEEE). -/
def F64.fgt : F64 → F64 → Bool
  | .num a, .num b => b < a
  | _, _ => false

/-- `f64` greater-or-equal (false on NaN operands). -/
def F64.fge : F64 → F64 → Bool
  | .num a, .num b => b ≤ a
  | _, _ => false

/-- `f64` strict less-than (false on NaN operands). -/
def F64.flt : F64 → F64 → Bool
  | .num a, .num b => a < b
  | _, _ => false

/-- `f64` less-or-equal (false on NaN operands). -/
def F64.fle : F64 → F64 → Bool
  | .num a, .num b => a ≤ b
  | _, _ => false

/-- Token kinds, from `src/src/token.rs` (`enum TokenKind`). -/
inductive TokenKind where
  | leftParen | rightParen | leftBrace | rightBrace
  | comma | dot | minus | plus | semicolon | slash | star
  | bang | bangEqual | equal | equalEqual
  | greater | greaterEqual | less | lessEqual
  | identifier | stringTk | number
  | andTk | classTk | elseTk | falseTk | funTk | forTk | ifTk | nilTk
  | orTk | printTk | returnTk | superTk | thisTk | trueTk | varTk | whileTk
  | eof
deriving DecidableEq

/-- Literal values carried by tokens, from `src/src/token.rs`
(`enum LiteralValue`). -/
inductive LiteralValue where
  | bool (b : Bool)
  | float (f : F64)
  | str (s : String)
  | nil
deriving DecidableEq

/-- A scanner token, from `src/src/token.rs` (`struct Token`), extended
with the field the spec's data model requires of the finished snapshot.
Modelled from the spec: section 3 gives Token "a unique scanner-position
identity (used for hashing/equality of parse-tree nodes built from it)";
the finished `tree_walk_lox/src/token.rs` is not among the source files,
so that identity is embedded as the explicit field `pos`. -/
structure Token where
  kind : TokenKind
  lexeme : String
  literal : LiteralValue
  line : Nat
  pos : Nat
deriving DecidableEq

/-- Modelled from the spec: Token equality/hashing is by the unique
scanner-position identity (spec section 3), not by component values. -/
def tokenEq (a b : Token) : Bool := a.pos == b.pos

mutual
/-- Expression nodes. Modelled from the spec (section 3 lists the
variants) with the exact field shapes used by the resolver
(`src/tree_walk_lox/src/resolver.rs`) and evaluator
(`src/src/interpreter.rs`); the finished `ast.rs` is not among the
source files. -/
inductive Expr where
  | literal (value : Token)
  | varE (name : Token)
  | assignE (name : Token) (value : Expr)
  | binary (left : Expr) (operator : Token) (right : Expr)
  | logical (left : Expr) (operator : Token) (right : Expr)
  | unary (operator : Token) (right : Expr)
  | call (callee : Expr) (paren : Token) (arguments : List Expr)
  | get (object : Expr) (name : Token)
  | setE (object : Expr) (name : Token) (value : Expr)
  | thisE (keyword : Token)
  | superE (keyword : Token) (method : Token)
  | grouping (expression : Expr)

/-- Statement nodes. Modelled from the spec (section 3) with the field
shapes used by the resolver and evaluator sources. -/
inductive Stmt where
  | expression (e : Expr)
  | print (e : Expr)
  | varDecl (name : Token) (initExpr : Option Expr)
  | block (statements : List Stmt)
  | ifS (condition : Expr) (thenBranch : Stmt) (elseBranch : Option Stmt)
  | whileS (condition : Expr) (body : Stmt)
  | funDecl (fn : FunctionStmt)
  | returnS (keyword : Token) (value : Option Expr)
  | classDecl (name : Token) (superclass : Option Token)
      (methods : List FunctionStmt)

/-- A function declaration (`FunctionStmt` in the Rust AST): name,
parameter tokens, body statement list. -/
inductive FunctionStmt where
  | mk (name : Token) (params : List Token) (body : List Stmt)
end

/-- Declared name token of a function declaration. -/
def FunctionStmt.name : FunctionStmt → Token
  | .mk n _ _ => n

/-- Parameter tokens of a function declaration. -/
def FunctionStmt.params : FunctionStmt → List Token
  | .mk _ p _ => p

/-- Body statement list of a function declaration. -/
def FunctionStmt.body : FunctionStmt → List Stmt
  | .mk _ _ b => b

/-- The side-table key of an expression node: node identity derives from
its tokens' unique scanner positions (spec section 3), and the nodes the
resolver records (`Variable`, `Assign`, `This`, `Super`) are each
identified by their name/keyword token. -/
def exprKey : Expr → Nat
  | .varE name => name.pos
  | .assignE name _ => name.pos
  | .thisE keyword => keyword.pos
  | .superE keyword _ => keyword.pos
  | _ => 0

/-- Association-list lookup (model of `HashMap::get`). -/
def alGet {α : Type} : List (String × α) → String → Option α
  | [], _ => none
  | (k, v) :: t, key => if k == key then some v else alGet t key

/-- Association-list membership (model of `HashMap::contains_key`). -/
def alContains {α : Type} (m : List (String × α)) (key : String) : Bool :=
  (alGet m key).isSome

/-- Association-list insert (model of `HashMap::insert`): overwrite the
existing entry for the key, or append a new one. -/
def alInsert {α : Type} : List (String × α) → String → α → List (String × α)
  | [], key, v => [(key, v)]
  | (k, w) :: t, key, v =>
    if k == key then (k, v) :: t else (k, w) :: alInsert t key v

/-- A user function value (`UserFunction` in `src/src/value/function.rs`):
the declaration plus a captured reference to the environment of its
definition point. Environments live in a heap (list indexed by allocation
order), so the captured closure is a heap index. -/
structure UserFn where
  declaration : FunctionStmt
  closure : Nat

/-- A built-in function value (`BuiltInFunction` in
`src/src/value/function.rs`): name and argument-name list. The repository
constructs exactly one built-in, `clock`; its behavior is modelled in the
evaluator. -/
structure BuiltInFn where
  name : String
  args : List String
deriving DecidableEq

/-- A class value (`ClassDefinition` in `src/tree_walk_lox/src/value/class.rs`):
name token, optional superclass, and a name→method table. Class values
are immutable after construction, so they are embedded inline. -/
inductive ClassDef where
  | mk (name : Token) (superclass : Option ClassDef)
      (methods : List (String × UserFn))

/-- Name token of a class. -/
def ClassDef.name : ClassDef → Token
  | .mk n _ _ => n

/-- Superclass of a class, if any. -/
def ClassDef.superclass : ClassDef → Option ClassDef
  | .mk _ s _ => s

/-- Method table of a class. -/
def ClassDef.methods : ClassDef → List (String × UserFn)
  | .mk _ _ m => m

/-- `ClassDefinition::find_method` (tree_walk_lox `value/class.rs`): the
local method table first, then the superclass chain. -/
def findMethod : ClassDef → String → Option UserFn
  | .mk _ superclass methods, name =>
    match alGet methods name, superclass with
    | some m, _ => some m
    | none, some sc => findMethod sc name
    | none, none => none

/-- Runtime values (`RuntimeValue` in `src/tree_walk_lox/src/value/mod.rs`).
Instances are mutable shared state in the source (`Arc<Mutex<…>>`), so an
instance value is an index into the instance heap of the interpreter
state. -/
inductive RuntimeValue where
  | bool (b : Bool)
  | float (f : F64)
  | str (s : String)
  | builtinFunction (f : BuiltInFn)
  | userFunction (f : UserFn)
  | classV (c : ClassDef)
  | instanceV (id : Nat)
  | nil

/-- `RuntimeValue::is_truthy`: `Nil` and `Bool(false)` are falsey,
everything else is truthy. -/
def isTruthy : RuntimeValue → Bool
  | .bool v => v
  | .nil => false
  | _ => true

/-- One allocated class instance (`ClassInstanceStorage` in
`src/tree_walk_lox/src/value/class.rs`): its class and its mutable
field map. -/
structure InstData where
  klass : ClassDef
  fields : List (String × RuntimeValue)

/-- `PartialEq for BuiltInFunction` (`src/src/value/function.rs`): by
name string only. -/
def builtinEq (a b : BuiltInFn) : Bool := a.name == b.name

/-- `PartialEq for UserFunction` (`src/src/value/function.rs`): by the
declaration's name token only — the closure environment and body are
ignored. -/
def userFnEq (a b : UserFn) : Bool :=
  tokenEq a.declaration.name b.declaration.name

/-- `PartialEq for ClassDefinition` (`src/tree_walk_lox/src/value/class.rs`):
by the class's name token only — superclass and method table ignored. -/
def classEq (a b : ClassDef) : Bool := tokenEq a.name b.name

/-- `HashMap` equality specialised to field maps compared with a value
comparison `f`: equal size, and every entry of `a` is matched in `b`. -/
def alEqBy {α : Type} (f : α → α → Bool) (a b : List (String × α)) : Bool :=
  a.length == b.length &&
    a.all (fun p => match alGet b p.1 with
      | some w => f p.2 w
      | none => false)

/-- `RuntimeValue::equals` / the derived `PartialEq for RuntimeValue`
(`src/tree_walk_lox/src/value/mod.rs` with `PartialEq for ClassInstance`
from `value/class.rs`): variant-sensitive; components compare through
their own `PartialEq`. Comparing instances dereferences the heap and
recurses into field maps, which in Rust runs on the host stack (and
diverges on cyclic instances); here the recursion is bounded by `fuel`. -/
def rtEq (insts : List InstData) : Nat → RuntimeValue → RuntimeValue → Bool
  | 0, _, _ => false
  | fuel + 1, a, b =>
    match a, b with
    | .bool x, .bool y => x == y
    | .float x, .float y => F64.feq x y
    | .str x, .str y => x == y
    | .builtinFunction x, .builtinFunction y => builtinEq x y
    | .userFunction x, .userFunction y => userFnEq x y
    | .classV x, .classV y => classEq x y
    | .instanceV i, .instanceV j =>
      match insts[i]?, insts[j]? with
      | some d, some e =>
        classEq d.klass e.klass && alEqBy (rtEq insts fuel) d.fields e.fields
      | _, _ => false
    | .nil, .nil => true
    | _, _ => false

/-- `CallableValue::arity` selected through `RuntimeValue::as_callable`:
`some` for the three callable variants (built-in: argument-name count;
user function: parameter count; class: the `init` method's arity or 0,
per tree_walk_lox `value/class.rs`), `none` for everything else. -/
def arityOf : RuntimeValue → Option Nat
  | .builtinFunction f => some f.args.length
  | .userFunction f => some f.declaration.params.length
  | .classV c =>
    some (match findMethod c "init" with
      | some m => m.declaration.params.length
      | none => 0)
  | _ => none

/-- One environment frame (`EnvironmentStorage` in `src/src/environment.rs`):
a name→value map plus an optional enclosing frame. Frames are shared
mutable state in the source (`Arc<Mutex<…>>`); here they live in a heap
indexed by allocation order, so `enclosing` is a heap index. -/
structure EnvData where
  values : List (String × RuntimeValue)
  enclosing : Option Nat

/-- The environment heap. -/
abbrev EnvHeap := List EnvData

/-- `Environment::new`: allocate a frame with no parent; the new frame's
index is the old heap length. -/
def envNew (h : EnvHeap) : Nat × EnvHeap :=
  (h.length, h ++ [⟨[], none⟩])

/-- `Environment::child` / `new_child`: allocate a frame enclosed by
`parent`. -/
def envChild (h : EnvHeap) (parent : Nat) : Nat × EnvHeap :=
  (h.length, h ++ [⟨[], some parent⟩])

/-- `Environment::define`: insert/overwrite in the current frame only. -/
def envDefine (h : EnvHeap) (i : Nat) (name : String) (v : RuntimeValue) :
    EnvHeap :=
  match h[i]? with
  | some d => h.set i { d with values := alInsert d.values name v }
  | none => h

/-- `Environment::assign`: if the current frame owns the name overwrite it
there (returning the previous value, as `HashMap::insert` does), else
recurse into the enclosing frame, else report failure with `none`. The
recursion follows the enclosing chain, bounded by `fuel` (chains are
acyclic in every reachable heap; callers pass the heap size). -/
def envAssign : Nat → EnvHeap → Nat → String → RuntimeValue →
    Option RuntimeValue × EnvHeap
  | 0, h, _, _, _ => (none, h)
  | fuel + 1, h, i, name, v =>
    match h[i]? with
    | none => (none, h)
    | some d =>
      if alContains d.values name then
        (alGet d.values name, h.set i { d with values := alInsert d.values name v })
      else
        match d.enclosing with
        | some p => envAssign fuel h p name v
        | none => (none, h)

/-- `Environment::get`: search this frame, then each ancestor in order;
`none` if absent everywhere (fuel-bounded chain walk as in `envAssign`). -/
def envGet : Nat → EnvHeap → Nat → String → Option RuntimeValue
  | 0, _, _, _ => none
  | fuel + 1, h, i, name =>
    match h[i]? with
    | none => none
    | some d =>
      match alGet d.values name with
      | some v => some v
      | none =>
        match d.enclosing with
        | some p => envGet fuel h p name
        | none => none

/-- `Environment::ancestor`: walk exactly `distance` enclosing links
(`distance > 0` is asserted in the source; a chain shorter than
`distance` panics there and is `none` here). -/
def ancestor (h : EnvHeap) : Nat → Nat → Option Nat
  | _, 0 => none
  | i, 1 => (h[i]?).bind (·.enclosing)
  | i, d + 2 =>
    match (h[i]?).bind (·.enclosing) with
    | some p => ancestor h p (d + 1)
    | none => none

/-- `Environment::get_at`: walk exactly `distance` parents, then read only
that frame's map. -/
def envGetAt (h : EnvHeap) (i : Nat) (distance : Nat) (name : String) :
    Option RuntimeValue :=
  if distance > 0 then
    match ancestor h i distance with
    | some j => (h[j]?).bind (fun d => alGet d.values name)
    | none => none
  else
    (h[i]?).bind (fun d => alGet d.values name)

/-- `Environment::assign_at`: walk exactly `distance` parents, then
insert into that frame's map unconditionally (a too-short chain panics in
the source; here the heap is left unchanged). -/
def envAssignAt (h : EnvHeap) (i : Nat) (distance : Nat) (name : String)
    (v : RuntimeValue) : EnvHeap :=
  if distance > 0 then
    match ancestor h i distance with
    | some j => envDefine h j name v
    | none => h
  else
    envDefine h i name v

/-- Function-context kind threaded through resolution
(`enum FunctionType` in `src/tree_walk_lox/src/resolver.rs`). -/
inductive FunctionType where
  | none
  | function
  | initFn
  | method
deriving DecidableEq

/-- Class-context kind threaded through resolution (`enum ClassType`). -/
inductive ClassType where
  | none
  | classType
  | subclass
deriving DecidableEq

/-- Static resolver failures. Each constructor is one of the resolver's
abort sites (`todo!` messages in `src/tree_walk_lox/src/resolver.rs`);
`outOfFuel` is an artifact of the fuel-bounded embedding and is never
produced when the fuel exceeds the AST depth. -/
inductive ResolveError where
  | returnTopLevel
  | returnFromInit
  | duplicateDeclaration
  | readInOwnInit
  | thisOutsideClass
  | superOutsideClass
  | superWithoutSuperclass
  | inheritFromSelf
  | outOfFuel
deriving DecidableEq

/-- Side-table lookup (the interpreter's `locals: HashMap<Expr, usize>`,
keyed by expression node identity — see `exprKey`). -/
def sideGet : List (Nat × Nat) → Nat → Option Nat
  | [], _ => none
  | (k, v) :: t, key => if k == key then some v else sideGet t key

/-- Side-table insert (`Interpreter::resolve`). -/
def sideInsert : List (Nat × Nat) → Nat → Nat → List (Nat × Nat)
  | [], key, v => [(key, v)]
  | (k, w) :: t, key, v =>
    if k == key then (k, v) :: t else (k, w) :: sideInsert t key v

/-- Resolver state (`struct Resolver`): the scope stack (index 0 is the
outermost scope, the last element the innermost — mirroring the `Vec`
that is pushed/popped at its end), the two context kinds, and the side
table it populates in the interpreter. -/
structure RState where
  scopes : List (List (String × Bool))
  currentFunction : FunctionType
  currentClass : ClassType
  locals : List (Nat × Nat)

/-- `Resolver::begin_scope`: push an empty scope map. -/
def beginScope (st : RState) : RState :=
  { st with scopes := st.scopes ++ [[]] }

/-- `Resolver::end_scope`: pop the innermost scope. -/
def endScope (st : RState) : RState :=
  { st with scopes := st.scopes.dropLast }

/-- `self.scopes.last_mut().unwrap().insert(lex, b)` — direct insertion
into the innermost scope (used for `this` and `super`); no-op on an empty
stack (the source would panic, but every call site just pushed a scope). -/
def insertTop (st : RState) (lex : String) (b : Bool) : RState :=
  match st.scopes.getLast? with
  | some scope =>
    { st with scopes := st.scopes.dropLast ++ [alInsert scope lex b] }
  | none => st

/-- `Resolver::declare`: insert the name with defined=false into the
innermost scope; fail if that same scope already has the name. With an
empty scope stack (top level) this is a no-op, exactly as in the source
(`if let Some(scope) = self.scopes.last_mut()`). -/
def declare (st : RState) (name : Token) : Except ResolveError RState :=
  match st.scopes.getLast? with
  | some scope =>
    if alContains scope name.lexeme then .error .duplicateDeclaration
    else
      .ok { st with
        scopes := st.scopes.dropLast ++ [alInsert scope name.lexeme false] }
  | none => .ok st

/-- `Resolver::define`: flip the name to defined=true in the innermost
scope (no-op on an empty stack). -/
def define (st : RState) (name : Token) : RState :=
  match st.scopes.getLast? with
  | some scope =>
    { st with scopes := st.scopes.dropLast ++ [alInsert scope name.lexeme true] }
  | none => st

/-- The scan inside `Resolver::resolve_local`:
`for (i, scope) in self.scopes.iter().enumerate()` — indices run from 0
(the OUTERMOST scope) upward, and the first scope containing the name
wins. Returns that first index. -/
def scanIdx : List (List (String × Bool)) → String → Nat → Option Nat
  | [], _, _ => none
  | scope :: rest, lex, i =>
    if alContains scope lex then some i else scanIdx rest lex (i + 1)

/-- The distance `Resolver::resolve_local` records for a name against a
scope stack: `scopes.len() - 1 - i` for the first index `i` found by the
forward scan; `none` when no scope contains the name. -/
def resolveLocalDistance (scopes : List (List (String × Bool)))
    (lex : String) : Option Nat :=
  (scanIdx scopes lex 0).map (fun i => scopes.length - 1 - i)

/-- Modelled from the spec: the distance section 4.2 prescribes for
`resolve_local` — "scan the scope stack from innermost outward; on the
first scope containing the name, record distance = (stack height − 1 −
index)". Scanning the reversed stack from the innermost end, the distance
equals the reversed index directly. Stated for comparison with
`resolveLocalDistance`, the source's scan. -/
def resolveLocalSpecDistance (scopes : List (List (String × Bool)))
    (lex : String) : Option Nat :=
  scanIdx scopes.reverse lex 0

/-- `Resolver::resolve_local`: record the computed distance against the
expression's node identity in the interpreter's side table; record
nothing when no local scope contains the name. -/
def resolveLocal (st : RState) (key : Nat) (name : Token) : RState :=
  match resolveLocalDistance st.scopes name.lexeme with
  | some d => { st with locals := sideInsert st.locals key d }
  | none => st

/-- The parameter loop of `Resolver::resolve_function`: declare then
define each parameter in the just-pushed scope. -/
def resolveParams (st : RState) :
    List Token → Except ResolveError RState
  | [] => .ok st
  | p :: rest => do
    let st ← declare st p
    resolveParams (define st p) rest

mutual
/-- `Resolver::resolve_expr` (`src/tree_walk_lox/src/resolver.rs`),
fuel-bounded. -/
def resolveExpr : Nat → RState → Expr → Except ResolveError RState
  | 0, _, _ => .error .outOfFuel
  | fuel + 1, st, e =>
    match e with
    | .varE name =>
      if (st.scopes.getLast?.bind (fun s => alGet s name.lexeme)) = some false
      then .error .readInOwnInit
      else .ok (resolveLocal st (exprKey e) name)
    | .assignE name value => do
      let st ← resolveExpr fuel st value
      .ok (resolveLocal st (exprKey e) name)
    | .call callee _ arguments => do
      let st ← resolveExpr fuel st callee
      resolveExprs fuel st arguments
    | .get object _ => resolveExpr fuel st object
    | .setE object _ value => do
      let st ← resolveExpr fuel st value
      resolveExpr fuel st object
    | .grouping expression => resolveExpr fuel st expression
    | .literal _ => .ok st
    | .logical left _ right => do
      let st ← resolveExpr fuel st left
      resolveExpr fuel st right
    | .binary left _ right => do
      let st ← resolveExpr fuel st left
      resolveExpr fuel st right
    | .unary _ right => resolveExpr fuel st right
    | .thisE keyword =>
      if st.currentClass = .none then .error .thisOutsideClass
      else .ok (resolveLocal st (exprKey e) keyword)
    | .superE keyword _ =>
      if st.currentClass = .none then .error .superOutsideClass
      else if st.currentClass ≠ .subclass then .error .superWithoutSuperclass
      else .ok (resolveLocal st (exprKey e) keyword)

/-- The argument loop of the `Expr::Call` arm of `resolve_expr`. -/
def resolveExprs : Nat → RState → List Expr → Except ResolveError RState
  | 0, _, _ => .error .outOfFuel
  | _ + 1, st, [] => .ok st
  | fuel + 1, st, e :: rest => do
    let st ← resolveExpr fuel st e
    resolveExprs fuel st rest

/-- `Resolver::resolve_stmt` (`src/tree_walk_lox/src/resolver.rs`),
fuel-bounded. -/
def resolveStmt : Nat → RState → Stmt → Except ResolveError RState
  | 0, _, _ => .error .outOfFuel
  | fuel + 1, st, s =>
    match s with
    | .block statements => do
      let st ← resolveStmts fuel (beginScope st) statements
      .ok (endScope st)
    | .varDecl name initExpr => do
      let st ← declare st name
      let st ← match initExpr with
        | some e => resolveExpr fuel st e
        | none => .ok st
      .ok (define st name)
    | .funDecl fn => do
      let st ← declare st fn.name
      resolveFunction fuel (define st fn.name) fn .function
    | .expression e => resolveExpr fuel st e
    | .ifS condition thenBranch elseBranch => do
      let st ← resolveExpr fuel st condition
      let st ← resolveStmt fuel st thenBranch
      match elseBranch with
      | some branch => resolveStmt fuel st branch
      | none => .ok st
    | .print e => resolveExpr fuel st e
    | .returnS _ value =>
      if st.currentFunction = .none then .error .returnTopLevel
      else if st.currentFunction = .initFn then .error .returnFromInit
      else
        match value with
        | some v => resolveExpr fuel st v
        | none => .ok st
    | .whileS condition body => do
      let st ← resolveExpr fuel st condition
      resolveStmt fuel st body
    | .classDecl name superclass methods => do
      let enclosingClass := st.currentClass
      let st := { st with currentClass := .classType }
      let st ← declare st name
      let st := define st name
      let st ← match superclass with
        | some sup => do
          let st := { st with currentClass := .subclass }
          if name.lexeme = sup.lexeme then .error .inheritFromSelf
          else do
            let st ← resolveExpr fuel st (.varE sup)
            .ok (insertTop (beginScope st) "super" true)
        | none => .ok st
      let st := insertTop (beginScope st) "this" true
      let st ← resolveMethods fuel st methods
      let st := endScope st
      let st := if superclass.isSome then endScope st else st
      .ok { st with currentClass := enclosingClass }

/-- `Resolver::resolve`: the statement loop. -/
def resolveStmts : Nat → RState → List Stmt → Except ResolveError RState
  | 0, _, _ => .error .outOfFuel
  | _ + 1, st, [] => .ok st
  | fuel + 1, st, s :: rest => do
    let st ← resolveStmt fuel st s
    resolveStmts fuel st rest

/-- `Resolver::resolve_function`: save and set the function context,
push one scope, declare+define the parameters, resolve the body, pop the
scope, restore the context. -/
def resolveFunction : Nat → RState → FunctionStmt → FunctionType →
    Except ResolveError RState
  | 0, _, _, _ => .error .outOfFuel
  | fuel + 1, st, fn, kind => do
    let enclosingFunction := st.currentFunction
    let st := { st with currentFunction := kind }
    let st ← resolveParams (beginScope st) fn.params
    let st ← resolveStmts fuel st fn.body
    let st := endScope st
    .ok { st with currentFunction := enclosingFunction }

/-- The method loop of the `Stmt::Class` arm: a method named "init"
resolves with the `Initializer` context, every other with `Method`. -/
def resolveMethods : Nat → RState → List FunctionStmt →
    Except ResolveError RState
  | 0, _, _ => .error .outOfFuel
  | _ + 1, st, [] => .ok st
  | fuel + 1, st, m :: rest => do
    let kind := if m.name.lexeme = "init" then FunctionType.initFn
      else FunctionType.method
    let st ← resolveFunction fuel st m kind
    resolveMethods fuel st rest
end

/-- The initial resolver state (`Resolver::new`): empty scope stack, no
function or class context, empty side table. -/
def initialRState : RState := ⟨[], .none, .none, []⟩

/-- A full resolver run over a program: `Resolver::new(...)` followed by
`resolve(statements)`. Returns the populated side table on success. -/
def resolveProgram (fuel : Nat) (statements : List Stmt) :
    Except ResolveError RState :=
  resolveStmts fuel initialRState statements

/-- Dynamic interpreter failures (`enum InterpreterError` in
`src/src/interpreter.rs`). `ret` is the internal Return-signal — a
control transfer, not a user-visible error. `nofuel` is an artifact of
the fuel-bounded embedding, standing for exhaustion of the host call
stack (spec section 5), and is treated as an ordinary non-Return
failure. -/
inductive IErr where
  | internal
  | unaryMinusOperandMustBeNumber (v : RuntimeValue)
  | operandsMustBeNumbers
  | operandsMustBeNumbersOrStr
  | undefinedVariable (name : Token)
  | undefinedProperty (name : Token)
  | notCallable (v : RuntimeValue)
  | functionArity (paren : Token) (expected : Nat) (got : Nat)
  | mustAccessValueOnInstances
  | ret (v : RuntimeValue)
  | nofuel

/-- Interpreter state (`struct Interpreter` plus the shared mutable
stores behind its `Arc`s): the environment heap, the instance heap, the
global frame's index, the current-environment cursor, the values printed
so far (value→string formatting is external, spec section 1), and the
modelled system time read by the `clock` built-in. The side table is
read-only during interpretation and is passed separately. -/
structure IState where
  envs : EnvHeap
  insts : List InstData
  globals : Nat
  current : Nat
  output : List RuntimeValue
  clock : F64

/-- State with the environment heap replaced (statement shorthand). -/
def withEnvs (st : IState) (h : EnvHeap) : IState := { st with envs := h }

/-- State with the instance heap replaced (statement shorthand). -/
def withInsts (st : IState) (i : List InstData) : IState :=
  { st with insts := i }

/-- State with both heaps replaced (statement shorthand). -/
def withInstsEnvs (st : IState) (i : List InstData) (h : EnvHeap) : IState :=
  { st with insts := i, envs := h }

/-- `ClassInstance::new`: allocate an instance of `c` with an empty field
map; the new instance's id is the old heap length. -/
def instNew (insts : List InstData) (c : ClassDef) : Nat × List InstData :=
  (insts.length, insts ++ [⟨c, []⟩])

/-- `UserFunction::bind` (`src/src/value/function.rs`): a fresh child of
the method's closure environment with `this` defined to the instance,
wrapped around the same declaration. -/
def bindMethod (h : EnvHeap) (m : UserFn) (instId : Nat) : UserFn × EnvHeap :=
  let (e, h) := envChild h m.closure
  let h := envDefine h e "this" (.instanceV instId)
  (⟨m.declaration, e⟩, h)

/-- `ClassInstance::get` (`src/tree_walk_lox/src/value/class.rs`): the
instance's own field map first; if absent, search the class's method
chain and produce a freshly `this`-bound closure (a new environment is
allocated on every such access). -/
def instGet (st : IState) (id : Nat) (name : Token) :
    Option RuntimeValue × IState :=
  match st.insts[id]? with
  | none => (none, st)
  | some d =>
    match alGet d.fields name.lexeme with
    | some v => (some v, st)
    | none =>
      match findMethod d.klass name.lexeme with
      | some m =>
        let (bound, h) := bindMethod st.envs m id
        (some (.userFunction bound), { st with envs := h })
      | none => (none, st)

/-- `ClassInstance::set`: always write into the instance's field map. -/
def instSet (st : IState) (id : Nat) (name : Token) (v : RuntimeValue) :
    IState :=
  match st.insts[id]? with
  | none => st
  | some d =>
    { st with
      insts := st.insts.set id { d with fields := alInsert d.fields name.lexeme v } }

/-- The runtime value of a literal token
(`Expr::Literal { value } => Ok(value.literal.clone())`). -/
def litToRuntime : LiteralValue → RuntimeValue
  | .bool b => .bool b
  | .float f => .float f
  | .str s => .str s
  | .nil => .nil

/-- `Interpreter::look_up_variable`: with a recorded distance use the
distance-addressed read from the current environment; otherwise read the
global environment by name; absent either way is an undefined-variable
error. -/
def lookUpVariable (t : List (Nat × Nat)) (st : IState) (name : Token)
    (e : Expr) : Except IErr RuntimeValue :=
  match sideGet t (exprKey e) with
  | some distance =>
    match envGetAt st.envs st.current distance name.lexeme with
    | some v => .ok v
    | none => .error (.undefinedVariable name)
  | none =>
    match envGet st.envs.length st.envs st.globals name.lexeme with
    | some v => .ok v
    | none => .error (.undefinedVariable name)

/-- The parameter-binding loop of `UserFunction::call`: zip the parameter
tokens with the argument values and define each in the fresh frame
(`zip` truncates at the shorter list, as in the source). -/
def defineParams (h : EnvHeap) (e : Nat) :
    List Token → List RuntimeValue → EnvHeap
  | p :: ps, a :: as_ => defineParams (envDefine h e p.lexeme a) e ps as_
  | _, _ => h

mutual
/-- `Interpreter::evaluate` (`src/src/interpreter.rs`), fuel-bounded.
The `This` and `Super` arms are modelled from the spec (section 4.3:
"`this`/`super` are resolved exactly like ordinary lexical variables via
the side table", with `super.method` dispatching to the superclass's
method bound to the current instance); the finished interpreter snapshot
that contains them is not among the source files. -/
def evaluate : Nat → List (Nat × Nat) → IState → Expr →
    Except IErr RuntimeValue × IState
  | 0, _, st, _ => (.error .nofuel, st)
  | fuel + 1, t, st, e =>
    match e with
    | .literal value => (.ok (litToRuntime value.literal), st)
    | .varE name => (lookUpVariable t st name e, st)
    | .call callee paren arguments =>
      match evaluate fuel t st callee with
      | (.error err, st) => (.error err, st)
      | (.ok calleeV, st) =>
        match evalArgs fuel t st arguments with
        | (.error err, st) => (.error err, st)
        | (.ok args, st) =>
          match arityOf calleeV with
          | some a =>
            if args.length ≠ a then
              (.error (.functionArity paren a args.length), st)
            else
              callValue fuel t st calleeV args
          | none => (.error (.notCallable calleeV), st)
    | .get object name =>
      match evaluate fuel t st object with
      | (.error err, st) => (.error err, st)
      | (.ok objV, st) =>
        match objV with
        | .instanceV id =>
          match instGet st id name with
          | (some v, st) => (.ok v, st)
          | (none, st) => (.error (.undefinedProperty name), st)
        | _ => (.error .mustAccessValueOnInstances, st)
    | .setE object name value =>
      match evaluate fuel t st object with
      | (.error err, st) => (.error err, st)
      | (.ok objV, st) =>
        match objV with
        | .instanceV id =>
          match evaluate fuel t st value with
          | (.error err, st) => (.error err, st)
          | (.ok v, st) => (.ok v, instSet st id name v)
        | _ => (.error .mustAccessValueOnInstances, st)
    | .grouping expression => evaluate fuel t st expression
    | .unary operator right =>
      match evaluate fuel t st right with
      | (.error err, st) => (.error err, st)
      | (.ok r, st) =>
        match operator.kind with
        | .minus =>
          match r with
          | .float f => (.ok (.float f.fneg), st)
          | v => (.error (.unaryMinusOperandMustBeNumber v), st)
        | .bang => (.ok (.bool (!(isTruthy r))), st)
        | _ => (.error .internal, st)
    | .assignE name value =>
      match evaluate fuel t st value with
      | (.error err, st) => (.error err, st)
      | (.ok v, st) =>
        match sideGet t (exprKey e) with
        | some distance =>
          (.ok v,
            { st with
              envs := envAssignAt st.envs st.current distance name.lexeme v })
        | none =>
          -- the Option result of `Environment::assign` is discarded by the
          -- source (`self.globals.assign(&name.lexeme, value.clone());`): an
          -- assignment the global frame does not own reports no failure
          let (_, h) := envAssign st.envs.length st.envs st.globals name.lexeme v
          (.ok v, { st with envs := h })
    | .binary left operator right =>
      match evaluate fuel t st left with
      | (.error err, st) => (.error err, st)
      | (.ok l, st) =>
        match evaluate fuel t st right with
        | (.error err, st) => (.error err, st)
        | (.ok r, st) =>
          match operator.kind with
          | .minus =>
            match l, r with
            | .float a, .float b => (.ok (.float (a.fsub b)), st)
            | _, _ => (.error .operandsMustBeNumbers, st)
          | .slash =>
            match l, r with
            | .float a, .float b => (.ok (.float (a.fdiv b)), st)
            | _, _ => (.error .operandsMustBeNumbers, st)
          | .star =>
            match l, r with
            | .float a, .float b => (.ok (.float (a.fmul b)), st)
            | _, _ => (.error .operandsMustBeNumbers, st)
          | .plus =>
            match l, r with
            | .float a, .float b => (.ok (.float (a.fadd b)), st)
            | .str a, .str b => (.ok (.str (a ++ b)), st)
            | _, _ => (.error .operandsMustBeNumbersOrStr, st)
          | .greater =>
            match l, r with
            | .float a, .float b => (.ok (.bool (a.fgt b)), st)
            | _, _ => (.error .operandsMustBeNumbers, st)
          | .greaterEqual =>
            match l, r with
            | .float a, .float b => (.ok (.bool (a.fge b)), st)
            | _, _ => (.error .operandsMustBeNumbers, st)
          | .less =>
            match l, r with
            | .float a, .float b => (.ok (.bool (a.flt b)), st)
            | _, _ => (.error .operandsMustBeNumbers, st)
          | .lessEqual =>
            match l, r with
            | .float a, .float b => (.ok (.bool (a.fle b)), st)
            | _, _ => (.error .operandsMustBeNumbers, st)
          | .bangEqual =>
            (.ok (.bool (!(rtEq st.insts (st.insts.length + 1) l r))), st)
          | .equalEqual =>
            (.ok (.bool (rtEq st.insts (st.insts.length + 1) l r)), st)
          | _ => (.error .internal, st)
    | .logical left operator right =>
      match evaluate fuel t st left with
      | (.error err, st) => (.error err, st)
      | (.ok l, st) =>
        if operator.kind = .orTk then
          if isTruthy l then (.ok l, st) else evaluate fuel t st right
        else
          if !(isTruthy l) then (.ok l, st) else evaluate fuel t st right
    | .thisE keyword => (lookUpVariable t st keyword e, st)
    | .superE _ method =>
      match sideGet t (exprKey e) with
      | some distance =>
        match envGetAt st.envs st.current distance "super" with
        | some (.classV sc) =>
          match envGetAt st.envs st.current (distance - 1) "this" with
          | some (.instanceV id) =>
            match findMethod sc method.lexeme with
            | some m =>
              let (bound, h) := bindMethod st.envs m id
              (.ok (.userFunction bound), { st with envs := h })
            | none => (.error (.undefinedProperty method), st)
          | _ => (.error .internal, st)
        | _ => (.error .internal, st)
      | none => (.error .internal, st)

/-- The argument loop of the `Expr::Call` arm: evaluate each argument
left to right, stopping at the first failure. -/
def evalArgs : Nat → List (Nat × Nat) → IState → List Expr →
    Except IErr (List RuntimeValue) × IState
  | 0, _, st, _ => (.error .nofuel, st)
  | _ + 1, _, st, [] => (.ok [], st)
  | fuel + 1, t, st, a :: rest =>
    match evaluate fuel t st a with
    | (.error err, st) => (.error err, st)
    | (.ok v, st) =>
      match evalArgs fuel t st rest with
      | (.error err, st) => (.error err, st)
      | (.ok vs, st) => (.ok (v :: vs), st)

/-- `Interpreter::execute` (`src/src/interpreter.rs`), fuel-bounded. The
`Stmt::Class` arm follows the source's interpreter snapshot, which
constructs classes without a superclass. -/
def execute : Nat → List (Nat × Nat) → IState → Stmt →
    Except IErr Unit × IState
  | 0, _, st, _ => (.error .nofuel, st)
  | fuel + 1, t, st, s =>
    match s with
    | .expression e =>
      match evaluate fuel t st e with
      | (.error err, st) => (.error err, st)
      | (.ok _, st) => (.ok (), st)
    | .print e =>
      match evaluate fuel t st e with
      | (.error err, st) => (.error err, st)
      | (.ok v, st) => (.ok (), { st with output := st.output ++ [v] })
    | .returnS _ value =>
      match value with
      | some v =>
        match evaluate fuel t st v with
        | (.error err, st) => (.error err, st)
        | (.ok rv, st) => (.error (.ret rv), st)
      | none => (.error (.ret .nil), st)
    | .varDecl name initExpr =>
      match initExpr with
      | some e =>
        match evaluate fuel t st e with
        | (.error err, st) => (.error err, st)
        | (.ok v, st) =>
          (.ok (), { st with envs := envDefine st.envs st.current name.lexeme v })
      | none =>
        (.ok (), { st with envs := envDefine st.envs st.current name.lexeme .nil })
    | .block statements =>
      let (e, h) := envChild st.envs st.current
      executeBlock fuel t { st with envs := h } statements e
    | .ifS condition thenBranch elseBranch =>
      match evaluate fuel t st condition with
      | (.error err, st) => (.error err, st)
      | (.ok c, st) =>
        if isTruthy c then execute fuel t st thenBranch
        else
          match elseBranch with
          | some branch => execute fuel t st branch
          | none => (.ok (), st)
    | .whileS condition body =>
      match evaluate fuel t st condition with
      | (.error err, st) => (.error err, st)
      | (.ok c, st) =>
        if isTruthy c then
          match execute fuel t st body with
          | (.error err, st) => (.error err, st)
          | (.ok _, st) => execute fuel t st (.whileS condition body)
        else (.ok (), st)
    | .funDecl fn =>
      (.ok (),
        { st with
          envs := envDefine st.envs st.current fn.name.lexeme
            (.userFunction ⟨fn, st.current⟩) })
    | .classDecl name _ methods =>
      let h := envDefine st.envs st.current name.lexeme .nil
      let classMethods := methods.foldl
        (fun acc m => alInsert acc m.name.lexeme (⟨m, st.current⟩ : UserFn)) []
      let c := ClassDef.mk name none classMethods
      -- the Option result of `Environment::assign` is discarded in the source
      let (_, h) := envAssign h.length h st.current name.lexeme (.classV c)
      (.ok (), { st with envs := h })

/-- The statement loop inside `Interpreter::execute_block`: run each
statement, stopping at the first failure. -/
def executeSeq : Nat → List (Nat × Nat) → IState → List Stmt →
    Except IErr Unit × IState
  | 0, _, st, _ => (.error .nofuel, st)
  | _ + 1, _, st, [] => (.ok (), st)
  | fuel + 1, t, st, s :: rest =>
    match execute fuel t st s with
    | (.error err, st) => (.error err, st)
    | (.ok _, st) => executeSeq fuel t st rest

/-- `Interpreter::execute_block`: save the current-environment cursor,
point it at `envId`, run the statements, and restore the saved cursor on
the failure path as well as on the success path. -/
def executeBlock (fuel : Nat) (t : List (Nat × Nat)) (st : IState)
    (statements : List Stmt) (envId : Nat) : Except IErr Unit × IState :=
  let previous := st.current
  let st := { st with current := envId }
  match executeSeq fuel t st statements with
  | (.error err, st) => (.error err, { st with current := previous })
  | (.ok _, st) => (.ok (), { st with current := previous })

/-- `CallableValue::call` dispatched over the callable variants:
the built-in (`clock`, which yields the modelled system time),
`UserFunction::call` (fresh child of the captured closure, parameters
bound, body run as a block, the Return-signal intercepted and every other
failure re-propagated), and `ClassDefinition::call` from
`src/tree_walk_lox/src/value/class.rs` (fresh instance; a found `init`
method is bound to it and called, its success value discarded; the
instance is the result). Non-callables are unreachable here because
`evaluate` checks `as_callable` first. -/
def callValue : Nat → List (Nat × Nat) → IState → RuntimeValue →
    List RuntimeValue → Except IErr RuntimeValue × IState
  | 0, _, st, _, _ => (.error .nofuel, st)
  | fuel + 1, t, st, callee, args =>
    match callee with
    | .builtinFunction _ => (.ok (.float st.clock), st)
    | .userFunction f =>
      let (e, h) := envChild st.envs f.closure
      let h := defineParams h e f.declaration.params args
      match executeBlock fuel t { st with envs := h } f.declaration.body e with
      | (.error (.ret v), st) => (.ok v, st)
      | (.error err, st) => (.error err, st)
      | (.ok _, st) => (.ok .nil, st)
    | .classV c =>
      let (id, insts) := instNew st.insts c
      let st := { st with insts := insts }
      match findMethod c "init" with
      | some m =>
        let (bound, h) := bindMethod st.envs m id
        let st := { st with envs := h }
        match callValue fuel t st (.userFunction bound) args with
        | (.error err, st) => (.error err, st)
        | (.ok _, st) => (.ok (.instanceV id), st)
      | none => (.ok (.instanceV id), st)
    | _ => (.error .internal, st)
end

/-- `Interpreter::interpret`: execute the top-level statements in order,
stopping at the first failure, which is reported to the driver (`Some`
here stands for the one message written to the error channel). -/
def interpret (fuel : Nat) (t : List (Nat × Nat)) :
    IState → List Stmt → Option IErr × IState
  | st, [] => (none, st)
  | st, s :: rest =>
    match execute fuel t st s with
    | (.error err, st) => (some err, st)
    | (.ok _, st) => interpret fuel t st rest

/-- `Interpreter::new`: one global frame holding the `clock` built-in;
the cursor starts at the globals. -/
def initialIState (clock : F64) : IState :=
  let (g, h) := envNew []
  let h := envDefine h g "clock" (.builtinFunction ⟨"clock", []⟩)
  { envs := h, insts := [], globals := g, current := g, output := [],
    clock := clock }

/-- An interpreter step result that is the internal Return-signal. -/
def isRetE {α : Type} : Except IErr α → Bool
  | .error (.ret _) => true
  | _ => false

mutual
/-- A statement syntactically contains a return that is not enclosed in a
function (or method) declaration of its own: executing such a statement
is the only way the Return-signal can arise outside a call frame.
Returns inside `funDecl`/`classDecl` bodies run only through
`UserFunction::call`, which intercepts the signal. -/
def hasBareReturn : Stmt → Bool
  | .returnS _ _ => true
  | .block statements => hasBareReturnList statements
  | .ifS _ thenBranch elseBranch =>
    hasBareReturn thenBranch || hasBareReturnOpt elseBranch
  | .whileS _ body => hasBareReturn body
  | _ => false

/-- `hasBareReturn` over an optional statement (an else branch). -/
def hasBareReturnOpt : Option Stmt → Bool
  | some branch => hasBareReturn branch
  | none => false

/-- `hasBareReturn` over a statement list. -/
def hasBareReturnList : List Stmt → Bool
  | [] => false
  | s :: rest => hasBareReturn s || hasBareReturnList rest
end

/-- The variant tag of a runtime value (used to state that equality is
variant-sensitive). -/
def variantIdx : RuntimeValue → Nat
  | .bool _ => 0
  | .float _ => 1
  | .str _ => 2
  | .builtinFunction _ => 3
  | .userFunction _ => 4
  | .classV _ => 5
  | .instanceV _ => 6
  | .nil => 7

/-- The keys of an association list are pairwise distinct — true of every
map that models a Rust `HashMap`. -/
def noDupKeys {α : Type} : List (String × α) → Bool
  | [] => true
  | (k, _) :: t => !(t.any (fun p => p.1 == k)) && noDupKeys t

/-- Every instance's field map has pairwise-distinct keys. -/
def wfFields (insts : List InstData) : Bool :=
  insts.all (fun d => noDupKeys d.fields)

/-- A runtime value contains a NaN float, following instance references
through the heap up to `fuel` levels deep (conservatively `true` when the
fuel runs out or an instance id dangles). Only floats and instance fields
matter: functions and classes compare by name identity, never by any
float they may carry. -/
def containsNan (insts : List InstData) : Nat → RuntimeValue → Bool
  | 0, _ => true
  | fuel + 1, v =>
    match v with
    | .float .nan => true
    | .float (.num _) => false
    | .instanceV i =>
      match insts[i]? with
      | some d => d.fields.any (fun p => containsNan insts fuel p.2)
      | none => true
    | _ => false

/-! Concrete test fixtures: tokens, programs and states used by the
claim theorems, counterexamples and witnesses below. Token `pos` values
are the unique scanner positions. -/

/-- Fixture: the identifier token of the outer `var a`. -/
def tkA1 : Token := ⟨.identifier, "a", .nil, 1, 1⟩

/-- Fixture: the literal token `1`. -/
def tkL1 : Token := ⟨.number, "1", .float (.num 1), 1, 2⟩

/-- Fixture: the identifier token of the inner (shadowing) `var a`. -/
def tkA2 : Token := ⟨.identifier, "a", .nil, 2, 3⟩

/-- Fixture: the literal token `2`. -/
def tkL2 : Token := ⟨.number, "2", .float (.num 2), 2, 4⟩

/-- Fixture: the token of the read `a` in the inner block. -/
def tkA3 : Token := ⟨.identifier, "a", .nil, 3, 5⟩

/-- Fixture program `{ var a = 1; { var a = 2; print a; } }`: the inner
read of `a` sits in the scope of the inner declaration, so lexical
scoping requires it to print `2`. -/
def shadowProg : List Stmt :=
  [.block
    [.varDecl tkA1 (some (.literal tkL1)),
     .block
       [.varDecl tkA2 (some (.literal tkL2)),
        .print (.varE tkA3)]]]

/-- Fixture: the identifier token `x` of an assignment target. -/
def tkX : Token := ⟨.identifier, "x", .nil, 1, 10⟩

/-- Fixture: the literal token `5`. -/
def tkL5 : Token := ⟨.number, "5", .float (.num 5), 1, 11⟩

/-- Fixture: the identifier token `f`. -/
def tkF : Token := ⟨.identifier, "f", .nil, 1, 20⟩

/-- Fixture: a closing-paren token (carried by call expressions for error
reporting). -/
def tkParen : Token := ⟨.rightParen, ")", .nil, 1, 21⟩

/-- Fixture: a zero-parameter function declaration `fun f() {}`. -/
def fDecl : FunctionStmt := .mk tkF [] []

/-- Fixture: an interpreter state whose globals bind `f` to the
zero-parameter function. -/
def stArity : IState :=
  let st := initialIState (.num 0)
  { st with
    envs := envDefine st.envs st.globals "f"
      (.userFunction ⟨fDecl, st.globals⟩) }

/-- Fixture program `var a; var a;` — the same name declared twice in the
identical (top-level) lexical scope. -/
def dupProg : List Stmt := [.varDecl tkA1 none, .varDecl tkA2 none]

/-- Fixture: the name token of class `K`. -/
def tkKlass : Token := ⟨.identifier, "K", .nil, 1, 30⟩

/-- Fixture: the identifier token `m` (a method name). -/
def tkM : Token := ⟨.identifier, "m", .nil, 1, 31⟩

/-- Fixture: the identifier token `g` (a field name). -/
def tkFld : Token := ⟨.identifier, "g", .nil, 1, 32⟩

/-- Fixture: a method value `m` (empty body, closure at frame 0). -/
def mFn : UserFn := ⟨.mk tkM [] [], 0⟩

/-- Fixture: a class `K` with single method `m` and no superclass. -/
def klassK : ClassDef := .mk tkKlass none [("m", mFn)]

/-- Fixture: an instance heap holding one instance of `K` whose field `g`
is the float 3. -/
def instsK : List InstData := [⟨klassK, [("g", .float (.num 3))]⟩]

/-- Fixture: an interpreter state holding that one instance. -/
def stInst : IState := { initialIState (.num 0) with insts := instsK }

/-- In a map with pairwise-distinct keys, looking up the key of any entry
finds exactly that entry (helper for field-map reflexivity). -/
theorem alGet_self_of_noDup {α : Type} :
    ∀ (l : List (String × α)) (p : String × α), noDupKeys l = true →
      p ∈ l → alGet l p.1 = some p.2 := by
  intro l
  induction l with
  | nil => intro p _ hp; cases hp
  | cons hd t ih =>
    intro p hnd hp
    obtain ⟨k, w⟩ := hd
    simp only [noDupKeys, Bool.and_eq_true, Bool.not_eq_true'] at hnd
    rcases List.mem_cons.mp hp with heq | hmem
    · subst heq; simp [alGet]
    · have hne : (k == p.1) = false := by
        rcases hk : k == p.1 with _ | _
        · rfl
        · exfalso
          have hany : t.any (fun q => q.1 == k) = true := by
            refine List.any_eq_true.mpr ⟨p, hmem, ?_⟩
            have := eq_of_beq hk
            simp [this]
          rw [hany] at hnd
          simp at hnd
      simp only [alGet]
      rw [if_neg (by simpa using hne)]
      exact ih p hnd.2 hmem

/-- A field map with distinct keys whose values are each `f`-reflexive is
`alEqBy f`-equal to itself (helper for instance reflexivity). -/
theorem alEqBy_self {α : Type} (f : α → α → Bool) :
    ∀ (l : List (String × α)), noDupKeys l = true →
      (∀ p ∈ l, f p.2 p.2 = true) → alEqBy f l l = true := by
  intro l hnd hf
  simp only [alEqBy, Bool.and_eq_true, beq_self_eq_true, true_and]
  refine List.all_eq_true.mpr ?_
  intro p hp
  rw [alGet_self_of_noDup l p hnd hp]
  exact hf p hp

/-- C10: runtime-value equality is not reflexive — `Float(NaN)` is
unequal to itself through the derived IEEE comparison — while every
value containing no NaN float (following instance fields through a
well-formed heap) is equal to itself. -/
theorem c10_equality_not_reflexive_nan :
    rtEq [] 1 (.float .nan) (.float .nan) = false
    ∧ (∀ insts fuel v, wfFields insts = true →
        containsNan insts fuel v = false → rtEq insts fuel v v = true) := by
  constructor
  · decide
  · intro insts fuel
    induction fuel with
    | zero => intro v _ h; simp [containsNan] at h
    | succ n ih =>
      intro v hwf h
      match v with
      | .bool x => simp [rtEq]
      | .float f =>
        cases f with
        | nan => simp [containsNan] at h
        | num q => simp [rtEq, F64.feq]
      | .str s => simp [rtEq]
      | .builtinFunction f => simp [rtEq, builtinEq]
      | .userFunction f => simp [rtEq, userFnEq, tokenEq]
      | .classV c => simp [rtEq, classEq, tokenEq]
      | .nil => simp [rtEq]
      | .instanceV i =>
        cases hg : insts[i]? with
        | none =>
          simp only [containsNan, hg] at h
          exact Bool.noConfusion h
        | some d =>
          simp only [containsNan, hg] at h
          have hmem : d ∈ insts := List.getElem?_mem hg
          have hnd : noDupKeys d.fields = true := by
            have := (List.all_eq_true.mp hwf) d hmem
            simpa using this
          have hvals : ∀ p ∈ d.fields, rtEq insts n p.2 p.2 = true := by
            intro p hp
            refine ih p.2 hwf ?_
            by_contra hc
            have hct : containsNan insts n p.2 = true := by
              revert hc
              cases containsNan insts n p.2 <;> simp
            have hany : d.fields.any (fun q => containsNan insts n q.2) = true :=
              List.any_eq_true.mpr ⟨p, hp, hct⟩
            rw [hany] at h
            exact Bool.noConfusion h
          simp only [rtEq, hg]
          rw [alEqBy_self (rtEq insts n) d.fields hnd hvals]
          simp [classEq, tokenEq]

/-- C10 witness: the fixture instance (one float field, no NaN) is equal
to itself. -/
theorem c10_witness : rtEq instsK 2 (.instanceV 0) (.instanceV 0) = true :=
  c10_equality_not_reflexive_nan.2 instsK 2 (.instanceV 0) (by decide)
    (by decide)



/-- C1 (code bug): `resolve_local` iterates `scopes.iter().enumerate()`
forward, so the first scope containing the name is the OUTERMOST one,
not the innermost the claim (and the spec's lexical-scoping contract)
prescribes: with `a` declared in both an outer and an inner scope the
recorded distance is 1 (outer) where the innermost-outward scan gives 0,
and the fixture program prints the outer `1` instead of the inner `2`.
When no scope contains the name nothing is recorded, as claimed. -/
theorem c1_resolve_local_scans_outermost_first :
    resolveLocalDistance [[("a", true)], [("a", true)]] "a" = some 1
    ∧ resolveLocalSpecDistance [[("a", true)], [("a", true)]] "a" = some 0
    ∧ resolveLocalDistance [[("b", true)]] "a" = none
    ∧ (resolveProgram 20 shadowProg).map RState.locals = .ok [(5, 1)]
    ∧ (interpret 20 [(5, 1)] (initialIState (.num 0)) shadowProg).2.output
        = [.float (.num 1)] := by
  refine ⟨by decide, by decide, by decide, ?_, ?_⟩
  · simp +decide [resolveProgram, resolveStmts, resolveStmt, resolveExpr,
      initialRState, beginScope, endScope, declare, define, resolveLocal,
      resolveLocalDistance, scanIdx, alContains, alGet, alInsert, sideInsert,
      exprKey, shadowProg, tkA1, tkA2, tkA3, tkL1, tkL2, Bind.bind,
      Except.bind, Except.map, List.getLast?, List.dropLast, Option.map,
      Option.bind]
  · simp +decide [interpret, execute, evaluate, executeBlock, executeSeq,
      initialIState, envNew, envChild, envDefine, envGet, envGetAt, ancestor,
      alGet, alInsert, alContains, lookUpVariable, sideGet, exprKey,
      litToRuntime, shadowProg, tkA1, tkA2, tkA3, tkL1, tkL2, List.set]

/-- C2 (code bug): `Environment::assign` searches frames top-down and
correctly reports failure (`none`) for a name no frame of the global
chain owns — but the `Expr::Assign` arm of `evaluate` discards that
result: assigning to the undefined global `x` succeeds with the assigned
value, reports no undefined-variable failure, and creates no binding
(the state is unchanged). -/
theorem c2_undefined_global_assign_error_discarded :
    envAssign 1 (initialIState (.num 0)).envs 0 "x" (.float (.num 5))
      = (none, (initialIState (.num 0)).envs)
    ∧ (evaluate 10 [] (initialIState (.num 0)) (.assignE tkX (.literal tkL5)))
        = (.ok (.float (.num 5)), initialIState (.num 0)) := by
  constructor
  · simp +decide [envAssign, initialIState, envNew, envDefine, alContains,
      alGet, alInsert, List.set]
  · simp +decide [evaluate, initialIState, envNew, envDefine, envAssign,
      alContains, alGet, alInsert, sideGet, exprKey, litToRuntime, tkX, tkL5,
      List.set]

/-- C8 counterexample: the identical lexical scope can be the top level,
where the resolver's scope stack is empty and `declare` is a no-op — the
program `var a; var a;` declares the same name twice in the identical
(global) scope yet resolves without any error, refuting "for every
program ... statically rejected". -/
theorem c8_counterexample : resolveProgram 10 dupProg = .ok initialRState := by
  simp +decide [resolveProgram, resolveStmts, resolveStmt, declare, define,
    initialRState, dupProg, List.getLast?, Bind.bind, Except.bind]

/-- C8 (amended): in any LOCAL scope (non-empty scope stack) `declare`
rejects a name the innermost scope already has with the
duplicate-declaration error, while declaring any name in a freshly
nested scope succeeds — shadowing across nested scopes is accepted. -/
theorem c8_duplicate_declaration_local_scopes :
    (∀ st (name : Token) scope, st.scopes.getLast? = some scope →
      alContains scope name.lexeme = true →
      declare st name = .error .duplicateDeclaration)
    ∧ (∀ st (name : Token), declare (beginScope st) name
        = .ok { st with scopes := st.scopes ++ [[(name.lexeme, false)]] }) := by
  constructor
  · intro st name scope hlast hmem
    simp [declare, hlast, hmem]
  · intro st name
    simp [declare, beginScope, List.getLast?_concat, alContains, alGet,
      alInsert, List.dropLast_concat]

/-- C8 witness: with innermost scope `{a}`, declaring `a` again is
rejected as a duplicate declaration. -/
theorem c8_witness :
    declare ⟨[[("a", false)]], .none, .none, []⟩ tkA2
      = .error .duplicateDeclaration :=
  c8_duplicate_declaration_local_scopes.1 _ tkA2 [("a", false)]
    (by decide) (by decide)

/-- C9: `execute_block` restores the saved current-environment cursor on
the failure path exactly as on the success path — after it returns the
cursor equals the one before the call — and it forwards the inner
result, so a failure partway through is still propagated. -/
theorem c9_execute_block_restores_cursor :
    ∀ fuel t st statements envId,
      ((executeBlock fuel t st statements envId).2).current = st.current
      ∧ (executeBlock fuel t st statements envId).1
          = (executeSeq fuel t { st with current := envId } statements).1 := by
  intro fuel t st statements envId
  simp only [executeBlock]
  split <;> simp_all

/-- C7: in a call, once the callee and all arguments are evaluated, an
argument count differing from the callable's arity fails with exactly
the arity error and the final state is the state after argument
evaluation — the callable's body is never entered. A user function's
arity is its parameter count, so calling a zero-parameter function with
one argument always fails this way. -/
theorem c7_arity_checked_before_body :
    (∀ fuel t st callee paren arguments calleeV st1 args st2 n,
      evaluate fuel t st callee = (.ok calleeV, st1) →
      evalArgs fuel t st1 arguments = (.ok args, st2) →
      arityOf calleeV = some n →
      args.length ≠ n →
      evaluate (fuel + 1) t st (.call callee paren arguments)
        = (.error (.functionArity paren n args.length), st2))
    ∧ (∀ f : UserFn,
        arityOf (.userFunction f) = some f.declaration.params.length) := by
  constructor
  · intro fuel t st callee paren arguments calleeV st1 args st2 n h1 h2 h3 h4
    simp only [evaluate, h1, h2, h3]
    simp [h4]
  · intro f
    rfl

/-- C7 witness: calling the zero-parameter fixture `f` with one argument
yields the arity error (expected 0, got 1) without running the body. -/
theorem c7_witness :
    evaluate 11 [] stArity (.call (.varE tkF) tkParen [.literal tkL5])
      = (.error (.functionArity tkParen 0 1), stArity) :=
  c7_arity_checked_before_body.1 10 [] stArity (.varE tkF) tkParen
    [.literal tkL5] (.userFunction ⟨fDecl, 0⟩) stArity [.float (.num 5)]
    stArity 0
    (by simp +decide [evaluate, lookUpVariable, stArity, initialIState, envNew,
      envDefine, envGet, sideGet, exprKey, alGet, alInsert, tkF, List.set])
    (by simp [evalArgs, evaluate, litToRuntime, tkL5])
    rfl
    (by decide)

/-- C4 counterexample: two class values with the same name token but
structurally different contents (one method table empty, the other not)
compare equal — `PartialEq for ClassDefinition` looks only at the name
token — refuting "equal exactly when their contents are structurally
equal". -/
theorem c4_counterexample :
    rtEq [] 1 (.classV (.mk tkKlass none [])) (.classV klassK) = true
    ∧ ClassDef.mk tkKlass none [] ≠ klassK := by
  constructor
  · decide
  · intro h
    simp [klassK] at h

/-- C4 (amended): equality is variant-sensitive — values of different
variants are never equal — and within a variant it compares Bool, Str
and Nil by contents, Float by IEEE f64 equality, built-in functions by
name, user functions and classes by declaration-name token identity
only, and instances by class plus field-map comparison under this same
equality. -/
theorem c4_equality_by_variant_and_identity :
    (∀ insts fuel a b, rtEq insts fuel a b = true → variantIdx a = variantIdx b)
    ∧ (∀ insts fuel x y, rtEq insts (fuel + 1) (.bool x) (.bool y) = (x == y))
    ∧ (∀ insts fuel x y,
        rtEq insts (fuel + 1) (.float x) (.float y) = F64.feq x y)
    ∧ (∀ insts fuel x y, rtEq insts (fuel + 1) (.str x) (.str y) = (x == y))
    ∧ (∀ insts fuel x y, rtEq insts (fuel + 1) (.builtinFunction x)
        (.builtinFunction y) = builtinEq x y)
    ∧ (∀ insts fuel x y, rtEq insts (fuel + 1) (.userFunction x)
        (.userFunction y) = userFnEq x y)
    ∧ (∀ insts fuel x y,
        rtEq insts (fuel + 1) (.classV x) (.classV y) = classEq x y)
    ∧ (∀ insts fuel, rtEq insts (fuel + 1) .nil .nil = true)
    ∧ (∀ insts fuel i j (d e : InstData), insts[i]? = some d →
        insts[j]? = some e →
        rtEq insts (fuel + 1) (.instanceV i) (.instanceV j)
          = (classEq d.klass e.klass
              && alEqBy (rtEq insts fuel) d.fields e.fields)) := by
  refine ⟨?_, fun _ _ _ _ => rfl, fun _ _ _ _ => rfl, fun _ _ _ _ => rfl,
    fun _ _ _ _ => rfl, fun _ _ _ _ => rfl, fun _ _ _ _ => rfl,
    fun _ _ => rfl, ?_⟩
  · intro insts fuel a b h
    cases fuel with
    | zero => simp [rtEq] at h
    | succ n => cases a <;> cases b <;> simp_all [rtEq, variantIdx]
  · intro insts fuel i j d e hd he
    simp [rtEq, hd, he]

/-- C4 witness: the variant-sensitivity clause applied to two equal
booleans, and the instance-comparison clause applied to the fixture
instance heap. -/
theorem c4_witness :
    variantIdx (.bool true) = variantIdx (.bool true)
    ∧ rtEq instsK 1 (.instanceV 0) (.instanceV 0)
        = (classEq klassK klassK
            && alEqBy (rtEq instsK 0) [("g", .float (.num 3))]
              [("g", .float (.num 3))]) :=
  ⟨c4_equality_by_variant_and_identity.1 [] 1 (.bool true) (.bool true)
      (by decide),
   c4_equality_by_variant_and_identity.2.2.2.2.2.2.2.2 instsK 0 0 0
      ⟨klassK, [("g", .float (.num 3))]⟩ ⟨klassK, [("g", .float (.num 3))]⟩
      rfl rfl⟩

/-- Inserting a key into an association list makes that key's lookup
return the inserted value (helper for property shadowing). -/
theorem alGet_alInsert_self {α : Type} :
    ∀ (l : List (String × α)) (k : String) (v : α),
      alGet (alInsert l k v) k = some v := by
  intro l k v
  induction l with
  | nil => simp [alInsert, alGet]
  | cons hd t ih =>
    obtain ⟨hk, hv⟩ := hd
    by_cases h : (hk == k) = true
    · simp [alInsert, h, alGet]
    · simp only [alInsert, h]
      simp only [Bool.false_eq_true] at h
      simp [alGet, h, ih]

/-- C6: a property read consults the instance's own field map first and
returns the stored value without touching the environment heap; only on
a miss is the class's method chain searched, and each hit allocates a
brand new `this`-bound closure environment (its index is the current
heap length, which is unallocated — no caching across accesses). A
property write always stores into the field map, so a write followed by
a read of that name yields the written value even when a method of the
same name exists. -/
theorem c6_property_get_set :
    ∀ st id (name : Token) d, st.insts[id]? = some d →
      (∀ v, alGet d.fields name.lexeme = some v →
        instGet st id name = (some v, st))
      ∧ (∀ m, alGet d.fields name.lexeme = none →
          findMethod d.klass name.lexeme = some m →
          instGet st id name
            = (some (.userFunction ⟨m.declaration, st.envs.length⟩),
               withEnvs st
                 (envDefine (st.envs ++ [⟨[], some m.closure⟩])
                   st.envs.length "this" (.instanceV id)))
          ∧ st.envs[st.envs.length]? = none)
      ∧ (∀ v, instGet (instSet st id name v) id name
          = (some v, instSet st id name v)) := by
  intro st id name d hd
  refine ⟨?_, ?_, ?_⟩
  · intro v hv
    simp [instGet, hd, hv]
  · intro m hmiss hm
    constructor
    · simp [instGet, hd, hmiss, hm, bindMethod, envChild, withEnvs]
    · simp
  · intro v
    have hlt : id < st.insts.length := by
      by_contra hc
      rw [List.getElem?_eq_none (Nat.le_of_not_lt hc)] at hd
      cases hd
    have hset : (instSet st id name v).insts[id]?
        = some { d with fields := alInsert d.fields name.lexeme v } := by
      simp [instSet, hd, List.getElem?_set_self, hlt]
    have hrepr : instSet st id name v
        = withInsts st
            (st.insts.set id
              { d with fields := alInsert d.fields name.lexeme v }) := by
      simp [instSet, hd, withInsts]
    simp [instGet, hset, alGet_alInsert_self]

/-- C6 witness: on the fixture instance, reading the stored field `g`
returns its value and leaves the state untouched. -/
theorem c6_witness :
    instGet stInst 0 tkFld = (some (.float (.num 3)), stInst) :=
  ((c6_property_get_set stInst 0 tkFld ⟨klassK, [("g", .float (.num 3))]⟩
    rfl).1 (.float (.num 3)) rfl)

/-- C5: invoking a class value allocates a fresh instance (its id is the
previously unallocated heap length); when `find_method` — searching the
class then its ancestors — yields no `init`, the call immediately
returns the new instance; when it yields `init`, that method is bound to
the new instance (`this` defined in a fresh closure frame) and called
with the call's arguments, every failure of it propagates unchanged,
and on success its return value is discarded in favour of the new
instance. -/
theorem c5_class_call_creates_instance_runs_init :
    ∀ fuel t st (c : ClassDef) args,
      st.insts[st.insts.length]? = none
      ∧ (findMethod c "init" = none →
          callValue (fuel + 1) t st (.classV c) args
            = (.ok (.instanceV st.insts.length),
               withInsts st (st.insts ++ [⟨c, []⟩])))
      ∧ (∀ m, findMethod c "init" = some m →
          envGetAt ((bindMethod st.envs m st.insts.length).2)
              ((bindMethod st.envs m st.insts.length).1).closure 0 "this"
            = some (.instanceV st.insts.length)
          ∧ (∀ v st3,
              callValue fuel t
                  (withInstsEnvs st (st.insts ++ [⟨c, []⟩])
                    ((bindMethod st.envs m st.insts.length).2))
                  (.userFunction (bindMethod st.envs m st.insts.length).1) args
                = (.ok v, st3) →
              callValue (fuel + 1) t st (.classV c) args
                = (.ok (.instanceV st.insts.length), st3))
          ∧ (∀ err st3,
              callValue fuel t
                  (withInstsEnvs st (st.insts ++ [⟨c, []⟩])
                    ((bindMethod st.envs m st.insts.length).2))
                  (.userFunction (bindMethod st.envs m st.insts.length).1) args
                = (.error err, st3) →
              callValue (fuel + 1) t st (.classV c) args
                = (.error err, st3))) := by
  intro fuel t st c args
  refine ⟨by simp, ?_, ?_⟩
  · intro hnone
    simp [callValue, instNew, hnone, withInsts]
  · intro m hm
    refine ⟨?_, ?_, ?_⟩
    · simp [bindMethod, envChild, envDefine, envGetAt,
        List.getElem?_concat_length, List.getElem?_set_self, alGet]
    · intro v st3 hcall
      simp only [callValue, instNew, hm, withInstsEnvs] at hcall ⊢
      rw [hcall]
    · intro err st3 hcall
      simp only [callValue, instNew, hm, withInstsEnvs] at hcall ⊢
      rw [hcall]

/-- C5 witness: calling the method-less, `init`-less fixture class
yields exactly a fresh instance of it. -/
theorem c5_witness :
    callValue 1 [] (initialIState (.num 0)) (.classV (.mk tkKlass none [])) []
      = (.ok (.instanceV 0),
         withInsts (initialIState (.num 0)) [⟨.mk tkKlass none [], []⟩]) :=
  (c5_class_call_creates_instance_runs_init 0 [] (initialIState (.num 0))
    (.mk tkKlass none []) []).2.1 rfl

/-- A boolean cannot be both true and false (branch closer). -/
theorem boolContra {p : Prop} {b : Bool} (h1 : b = true) (h2 : b = false) :
    p :=
  absurd (h2 ▸ h1) Bool.false_ne_true

/-- Transport "not the Return-signal" along a result equation, across the
re-wrapping of the propagated error at a different value type. -/
theorem retFreeCast {α β : Type} {p : Except IErr α × IState} {err : IErr}
    {st2 : IState} (hres : isRetE p.1 = false) (h : p = (.error err, st2)) :
    isRetE (α := β) (.error err) = false := by
  have hh := h ▸ hres
  cases err <;> simp_all [isRetE]

/-- Transport "is the Return-signal" along a result equation. -/
theorem retTrue_of_eq {α : Type} {p r : Except IErr α × IState}
    (h : p = r) (htrue : isRetE r.1 = true) : isRetE p.1 = true :=
  h ▸ htrue

/-- An error known not to be a Return-signal is not one (the
overlapping-pattern guard of `UserFunction::call`). -/
theorem isRetE_false_of_ne {α : Type} {err : IErr}
    (hne : ∀ v, err = .ret v → False) : isRetE (α := α) (.error err) = false := by
  cases err <;> first | rfl | exact absurd rfl (hne _)

/-- Variable lookup never produces the Return-signal. -/
theorem lookUpVariable_not_ret (t : List (Nat × Nat)) (st : IState)
    (name : Token) (e : Expr) : isRetE (lookUpVariable t st name e) = false := by
  simp only [lookUpVariable]
  repeat' split
  all_goals rfl

/-- The Return-signal discipline, by induction over the fuel:
expressions and calls never produce the Return-signal (every call frame
intercepts it), and a statement (list) produces it only when it
syntactically contains a bare return. -/
theorem run_ret_free : ∀ fuel,
    (∀ t st e, isRetE (evaluate fuel t st e).1 = false)
    ∧ (∀ t st es, isRetE (evalArgs fuel t st es).1 = false)
    ∧ (∀ t st s, isRetE (execute fuel t st s).1 = true →
        hasBareReturn s = true)
    ∧ (∀ t st ss, isRetE (executeSeq fuel t st ss).1 = true →
        hasBareReturnList ss = true)
    ∧ (∀ t st ss envId, isRetE (executeBlock fuel t st ss envId).1 = true →
        hasBareReturnList ss = true)
    ∧ (∀ t st c args, isRetE (callValue fuel t st c args).1 = false) := by
  intro fuel
  induction fuel with
  | zero =>
    refine ⟨fun t st e => by simp [evaluate, isRetE],
      fun t st es => by simp [evalArgs, isRetE],
      fun t st s h => by simp [execute, isRetE] at h,
      fun t st ss h => by simp [executeSeq, isRetE] at h,
      fun t st ss envId h => by
        simp [executeBlock, executeSeq, isRetE] at h,
      fun t st c args => by simp [callValue, isRetE]⟩
  | succ n ih =>
    obtain ⟨ihE, ihA, ihX, ihS, ihB, ihC⟩ := ih
    have hE : ∀ t st e, isRetE (evaluate (n + 1) t st e).1 = false := by
      intro t st e
      cases e <;> simp only [evaluate] <;> (repeat' split) <;>
        first
          | rfl
          | (exact lookUpVariable_not_ret _ _ _ _)
          | (exact ihE _ _ _)
          | (exact ihC _ _ _ _)
          | (rename_i heq
             first
               | exact retFreeCast (ihE _ _ _) heq
               | exact retFreeCast (ihA _ _ _) heq
               | exact retFreeCast (ihC _ _ _ _) heq)
          | simp [isRetE]
    have hA : ∀ t st es, isRetE (evalArgs (n + 1) t st es).1 = false := by
      intro t st es
      cases es <;> simp only [evalArgs] <;> (repeat' split) <;>
        first
          | rfl
          | (rename_i heq
             first
               | exact retFreeCast (ihE _ _ _) heq
               | exact retFreeCast (ihA _ _ _) heq)
          | simp [isRetE]
    have hC : ∀ t st c args,
        isRetE (callValue (n + 1) t st c args).1 = false := by
      intro t st c args
      cases c <;> simp only [callValue] <;> (repeat' split) <;>
        first
          | rfl
          | (rename_i hne heq
             exact isRetE_false_of_ne hne)
          | (rename_i heq
             first
               | exact retFreeCast (ihC _ _ _ _) heq)
          | simp [isRetE]
    have hX : ∀ t st s, isRetE (execute (n + 1) t st s).1 = true →
        hasBareReturn s = true := by
      intro t st s h
      cases s with
      | expression e =>
        simp only [execute] at h
        split at h
        · rename_i heq; exact boolContra h (retFreeCast (ihE _ _ _) heq)
        · simp [isRetE] at h
      | print e =>
        simp only [execute] at h
        repeat' split at h
        · rename_i heq; exact boolContra h (retFreeCast (ihE _ _ _) heq)
        · simp [isRetE] at h
      | returnS tok val => simp [hasBareReturn]
      | varDecl name initE =>
        cases initE with
        | some e =>
          simp only [execute] at h
          split at h
          · rename_i heq; exact boolContra h (retFreeCast (ihE _ _ _) heq)
          · simp [isRetE] at h
        | none => simp [execute, isRetE] at h
      | block statements =>
        simp only [execute, envChild] at h
        simp only [hasBareReturn]
        exact ihB _ _ _ _ h
      | ifS c thenB elseB =>
        simp only [execute] at h
        split at h
        · rename_i heq; exact boolContra h (retFreeCast (ihE _ _ _) heq)
        · split at h
          · have hb := ihX _ _ _ h
            simp [hasBareReturn, hasBareReturnOpt, hb]
          · split at h
            · have hb := ihX _ _ _ h
              simp [hasBareReturn, hasBareReturnOpt, hb]
            · simp [isRetE] at h
      | whileS c body =>
        simp only [execute] at h
        split at h
        · rename_i heq; exact boolContra h (retFreeCast (ihE _ _ _) heq)
        · split at h
          · split at h
            · rename_i heq
              have hb := ihX _ _ _ (retTrue_of_eq heq h)
              simp [hasBareReturn, hb]
            · have hb := ihX _ _ _ h
              simp only [hasBareReturn] at hb ⊢
              exact hb
          · simp [isRetE] at h
      | funDecl fn => simp [execute, isRetE] at h
      | classDecl name sup methods =>
        simp only [execute] at h
        repeat' split at h
        all_goals simp [isRetE] at h
    have hS : ∀ t st ss, isRetE (executeSeq (n + 1) t st ss).1 = true →
        hasBareReturnList ss = true := by
      intro t st ss h
      cases ss with
      | nil => simp [executeSeq, isRetE] at h
      | cons s rest =>
        simp only [executeSeq] at h
        split at h
        · rename_i heq
          have hb : hasBareReturn s = true := ihX _ _ _ (retTrue_of_eq heq h)
          simp [hasBareReturnList, hb]
        · have hb := ihS _ _ _ h
          simp [hasBareReturnList, hb]
    have hB : ∀ t st ss envId,
        isRetE (executeBlock (n + 1) t st ss envId).1 = true →
        hasBareReturnList ss = true := by
      intro t st ss envId h
      simp only [executeBlock] at h
      split at h
      · rename_i heq
        have hh : isRetE
            (executeSeq (n + 1) t { st with current := envId } ss).1 = true := by
          rw [heq]
          exact h
        exact hS _ _ _ hh
      · simp [isRetE] at h
    exact ⟨hE, hA, hX, hS, hB, hC⟩



/-- Eliminate a successful `Except` bind into its two successful steps. -/
theorem bindOk {α β : Type} {ma : Except ResolveError α}
    {f : α → Except ResolveError β} {b : β}
    (h : ma >>= f = .ok b) : ∃ a, ma = .ok a ∧ f a = .ok b := by
  cases ma with
  | error e => exact absurd h (by simp [Bind.bind, Except.bind])
  | ok a => exact ⟨a, rfl, by simpa [Bind.bind, Except.bind] using h⟩

/-- `begin_scope` leaves the function context unchanged. -/
theorem beginScope_cf (st : RState) :
    (beginScope st).currentFunction = st.currentFunction := rfl

/-- `end_scope` leaves the function context unchanged. -/
theorem endScope_cf (st : RState) :
    (endScope st).currentFunction = st.currentFunction := rfl

/-- `define` leaves the function context unchanged. -/
theorem define_cf (st : RState) (name : Token) :
    (define st name).currentFunction = st.currentFunction := by
  simp only [define]
  split <;> rfl

/-- Direct scope insertion leaves the function context unchanged. -/
theorem insertTop_cf (st : RState) (lex : String) (b : Bool) :
    (insertTop st lex b).currentFunction = st.currentFunction := by
  simp only [insertTop]
  split <;> rfl

/-- `resolve_local` leaves the function context unchanged. -/
theorem resolveLocal_cf (st : RState) (key : Nat) (name : Token) :
    (resolveLocal st key name).currentFunction = st.currentFunction := by
  simp only [resolveLocal]
  split <;> rfl

/-- `declare` leaves the function context unchanged. -/
theorem declare_cf {st st2 : RState} {name : Token}
    (h : declare st name = .ok st2) :
    st2.currentFunction = st.currentFunction := by
  simp only [declare] at h
  split at h
  · split at h
    · cases h
    · cases h; rfl
  · cases h; rfl

/-- The parameter loop leaves the function context unchanged. -/
theorem resolveParams_cf :
    ∀ (ps : List Token) {st st2 : RState},
      resolveParams st ps = .ok st2 →
      st2.currentFunction = st.currentFunction := by
  intro ps
  induction ps with
  | nil => intro st st2 h; cases h; rfl
  | cons p rest ih =>
    intro st st2 h
    simp only [resolveParams] at h
    obtain ⟨st1, h1, h2⟩ := bindOk h
    rw [ih h2, define_cf, declare_cf h1]

/-- Every resolver step leaves the function context as it found it
(`resolve_function` saves and restores it; nothing else writes it). -/
theorem resolve_preserves_cf : ∀ fuel,
    (∀ st e st2, resolveExpr fuel st e = .ok st2 →
      st2.currentFunction = st.currentFunction)
    ∧ (∀ st es st2, resolveExprs fuel st es = .ok st2 →
      st2.currentFunction = st.currentFunction)
    ∧ (∀ st s st2, resolveStmt fuel st s = .ok st2 →
      st2.currentFunction = st.currentFunction)
    ∧ (∀ st ss st2, resolveStmts fuel st ss = .ok st2 →
      st2.currentFunction = st.currentFunction)
    ∧ (∀ st fn kind st2, resolveFunction fuel st fn kind = .ok st2 →
      st2.currentFunction = st.currentFunction)
    ∧ (∀ st ms st2, resolveMethods fuel st ms = .ok st2 →
      st2.currentFunction = st.currentFunction) := by
  intro fuel
  induction fuel with
  | zero =>
    refine ⟨?_, ?_, ?_, ?_, ?_, ?_⟩ <;> intro st
    · intro e st2 h; cases h
    · intro es st2 h; cases h
    · intro s st2 h; cases h
    · intro ss st2 h; cases h
    · intro fn kind st2 h; cases h
    · intro ms st2 h; cases h
  | succ n ih =>
    obtain ⟨ihE, ihA, ihX, ihS, ihF, ihM⟩ := ih
    have hE : ∀ st e st2, resolveExpr (n + 1) st e = .ok st2 →
        st2.currentFunction = st.currentFunction := by
      intro st e st2 h
      cases e with
      | varE name =>
        simp only [resolveExpr] at h
        split at h
        · cases h
        · cases h; rw [resolveLocal_cf]
      | assignE name value =>
        simp only [resolveExpr] at h
        obtain ⟨st1, h1, h2⟩ := bindOk h
        cases h2
        rw [resolveLocal_cf, ihE _ _ _ h1]
      | call callee paren arguments =>
        simp only [resolveExpr] at h
        obtain ⟨st1, h1, h2⟩ := bindOk h
        rw [ihA _ _ _ h2, ihE _ _ _ h1]
      | get object name =>
        simp only [resolveExpr] at h
        exact ihE _ _ _ h
      | setE object name value =>
        simp only [resolveExpr] at h
        obtain ⟨st1, h1, h2⟩ := bindOk h
        rw [ihE _ _ _ h2, ihE _ _ _ h1]
      | grouping expression =>
        simp only [resolveExpr] at h
        exact ihE _ _ _ h
      | literal _ => cases h; rfl
      | logical left op right =>
        simp only [resolveExpr] at h
        obtain ⟨st1, h1, h2⟩ := bindOk h
        rw [ihE _ _ _ h2, ihE _ _ _ h1]
      | binary left op right =>
        simp only [resolveExpr] at h
        obtain ⟨st1, h1, h2⟩ := bindOk h
        rw [ihE _ _ _ h2, ihE _ _ _ h1]
      | unary op right =>
        simp only [resolveExpr] at h
        exact ihE _ _ _ h
      | thisE keyword =>
        simp only [resolveExpr] at h
        split at h
        · cases h
        · cases h; rw [resolveLocal_cf]
      | superE keyword method =>
        simp only [resolveExpr] at h
        split at h
        · cases h
        · split at h
          · cases h
          · cases h; rw [resolveLocal_cf]
    have hA : ∀ st es st2, resolveExprs (n + 1) st es = .ok st2 →
        st2.currentFunction = st.currentFunction := by
      intro st es st2 h
      cases es with
      | nil => cases h; rfl
      | cons e rest =>
        simp only [resolveExprs] at h
        obtain ⟨st1, h1, h2⟩ := bindOk h
        rw [ihA _ _ _ h2, ihE _ _ _ h1]
    have hF : ∀ st fn kind st2, resolveFunction (n + 1) st fn kind = .ok st2 →
        st2.currentFunction = st.currentFunction := by
      intro st fn kind st2 h
      simp only [resolveFunction] at h
      obtain ⟨st1, h1, h2⟩ := bindOk h
      obtain ⟨st3, h3, h4⟩ := bindOk h2
      cases h4
      rfl
    have hM : ∀ st ms st2, resolveMethods (n + 1) st ms = .ok st2 →
        st2.currentFunction = st.currentFunction := by
      intro st ms st2 h
      cases ms with
      | nil => cases h; rfl
      | cons m rest =>
        simp only [resolveMethods] at h
        obtain ⟨st1, h1, h2⟩ := bindOk h
        rw [ihM _ _ _ h2, ihF _ _ _ _ h1]
    have hX : ∀ st s st2, resolveStmt (n + 1) st s = .ok st2 →
        st2.currentFunction = st.currentFunction := by
      intro st s st2 h
      cases s with
      | block statements =>
        simp only [resolveStmt] at h
        obtain ⟨st1, h1, h2⟩ := bindOk h
        cases h2
        rw [endScope_cf, ihS _ _ _ h1, beginScope_cf]
      | varDecl name initExpr =>
        simp only [resolveStmt] at h
        obtain ⟨st1, h1, h2⟩ := bindOk h
        cases initExpr with
        | some e =>
          obtain ⟨st3, h3, h4⟩ := bindOk h2
          cases h4
          rw [define_cf, ihE _ _ _ h3, declare_cf h1]
        | none =>
          obtain ⟨st3, h3, h4⟩ := bindOk h2
          cases h3
          cases h4
          rw [define_cf, declare_cf h1]
      | funDecl fn =>
        simp only [resolveStmt] at h
        obtain ⟨st1, h1, h2⟩ := bindOk h
        rw [ihF _ _ _ _ h2, define_cf, declare_cf h1]
      | expression e =>
        simp only [resolveStmt] at h
        exact ihE _ _ _ h
      | ifS condition thenB elseB =>
        simp only [resolveStmt] at h
        obtain ⟨st1, h1, h2⟩ := bindOk h
        obtain ⟨st3, h3, h4⟩ := bindOk h2
        have e3 := ihX _ _ _ h3
        have e1 := ihE _ _ _ h1
        cases elseB with
        | some branch => rw [ihX _ _ _ h4, e3, e1]
        | none => cases h4; rw [e3, e1]
      | print e =>
        simp only [resolveStmt] at h
        exact ihE _ _ _ h
      | returnS keyword value =>
        simp only [resolveStmt] at h
        split at h
        · cases h
        · split at h
          · cases h
          · cases value with
            | some v => exact ihE _ _ _ h
            | none => cases h; rfl
      | whileS condition body =>
        simp only [resolveStmt] at h
        obtain ⟨st1, h1, h2⟩ := bindOk h
        rw [ihX _ _ _ h2, ihE _ _ _ h1]
      | classDecl name superclass methods =>
        simp only [resolveStmt] at h
        obtain ⟨st1, h1, h2⟩ := bindOk h
        cases superclass with
        | none =>
          obtain ⟨st3, h3, h4⟩ := bindOk h2
          cases h3
          obtain ⟨st5, h5, h6⟩ := bindOk h4
          cases h6
          simp [endScope_cf, ihM _ _ _ h5, insertTop_cf, beginScope_cf,
            define_cf, declare_cf h1]
        | some sup =>
          split at h2
          · rename_i sup2 heq
            injection heq with heq2
            subst heq2
            split at h2
            · obtain ⟨y, hy, h2⟩ := bindOk h2
              cases hy
            · obtain ⟨st3, h3, h2⟩ := bindOk h2
              obtain ⟨st5, h5, h2⟩ := bindOk h2
              cases h5
              obtain ⟨st7, h7, h2⟩ := bindOk h2
              cases h2
              simp [endScope_cf, ihM _ _ _ h7, insertTop_cf, beginScope_cf,
                define_cf, ihE _ _ _ h3, declare_cf h1]
          · rename_i heq
            cases heq
    have hS : ∀ st ss st2, resolveStmts (n + 1) st ss = .ok st2 →
        st2.currentFunction = st.currentFunction := by
      intro st ss st2 h
      cases ss with
      | nil => cases h; rfl
      | cons s rest =>
        simp only [resolveStmts] at h
        obtain ⟨st1, h1, h2⟩ := bindOk h
        rw [ihS _ _ _ h2, ihX _ _ _ h1]
    exact ⟨hE, hA, hX, hS, hF, hM⟩



/-- A resolver-accepted statement (list) in top-level context
(`current_function = None`) contains no bare return: the resolver
statically rejects `return` outside a function. -/
theorem resolve_no_bare_return : ∀ fuel,
    (∀ st s st2, st.currentFunction = .none →
      resolveStmt fuel st s = .ok st2 → hasBareReturn s = false)
    ∧ (∀ st ss st2, st.currentFunction = .none →
      resolveStmts fuel st ss = .ok st2 → hasBareReturnList ss = false) := by
  intro fuel
  induction fuel with
  | zero =>
    constructor
    · intro st s st2 _ h; cases h
    · intro st ss st2 _ h; cases h
  | succ n ih =>
    obtain ⟨ihX, ihS⟩ := ih
    constructor
    · intro st s st2 hcf h
      cases s with
      | returnS keyword value => simp [resolveStmt, hcf] at h
      | block statements =>
        simp only [resolveStmt] at h
        obtain ⟨st1, h1, h2⟩ := bindOk h
        simp only [hasBareReturn]
        exact ihS _ _ _ (by rw [beginScope_cf]; exact hcf) h1
      | ifS condition thenB elseB =>
        simp only [resolveStmt] at h
        obtain ⟨st1, h1, h2⟩ := bindOk h
        obtain ⟨st3, h3, h4⟩ := bindOk h2
        have hcf1 : st1.currentFunction = .none := by
          rw [(resolve_preserves_cf n).1 _ _ _ h1]; exact hcf
        have hb3 := ihX _ _ _ hcf1 h3
        have hcf3 : st3.currentFunction = .none := by
          rw [(resolve_preserves_cf n).2.2.1 _ _ _ h3]; exact hcf1
        cases elseB with
        | some branch =>
          have hb4 := ihX _ _ _ hcf3 h4
          simp [hasBareReturn, hasBareReturnOpt, hb3, hb4]
        | none => simp [hasBareReturn, hasBareReturnOpt, hb3]
      | whileS condition body =>
        simp only [resolveStmt] at h
        obtain ⟨st1, h1, h2⟩ := bindOk h
        have hcf1 : st1.currentFunction = .none := by
          rw [(resolve_preserves_cf n).1 _ _ _ h1]; exact hcf
        have hb := ihX _ _ _ hcf1 h2
        simp [hasBareReturn, hb]
      | expression e => simp [hasBareReturn]
      | print e => simp [hasBareReturn]
      | varDecl name initExpr => simp [hasBareReturn]
      | funDecl fn => simp [hasBareReturn]
      | classDecl name superclass methods => simp [hasBareReturn]
    · intro st ss st2 hcf h
      cases ss with
      | nil => simp [hasBareReturnList]
      | cons s rest =>
        simp only [resolveStmts] at h
        obtain ⟨st1, h1, h2⟩ := bindOk h
        have hb := ihX _ _ _ hcf h1
        have hcf1 : st1.currentFunction = .none := by
          rw [(resolve_preserves_cf n).2.2.1 _ _ _ h1]; exact hcf
        have hb2 := ihS _ _ _ hcf1 h2
        simp [hasBareReturnList, hb, hb2]

/-- A top-level statement list with no bare return never makes
`interpret` deliver the Return-signal. -/
theorem interpret_no_ret_of_no_bare :
    ∀ (stmts : List Stmt) fuel t st,
      hasBareReturnList stmts = false →
      ∀ v, (interpret fuel t st stmts).1 ≠ some (.ret v) := by
  intro stmts
  induction stmts with
  | nil => intro fuel t st _ v; simp [interpret]
  | cons s rest ih =>
    intro fuel t st hb v
    simp only [hasBareReturnList, Bool.or_eq_false_iff] at hb
    simp only [interpret]
    split
    · rename_i heq
      intro hc
      simp only [Option.some.injEq] at hc
      subst hc
      have : isRetE (execute fuel t st s).1 = true := by
        rw [heq]
        rfl
      have hbare := (run_ret_free fuel).2.2.1 _ _ _ this
      rw [hbare] at hb
      exact Bool.noConfusion hb.1
    · exact ih _ _ _ hb.2 v



/-- C3: executing a return statement produces the internal Return-signal
carrying the evaluated value (Nil when absent); the nearest enclosing
call frame (`UserFunction::call`) converts exactly that signal into the
call's result, re-propagates every other failure unchanged, and turns
signal-free completion into Nil; and for every resolver-accepted program
the Return-signal is never the outcome `interpret` delivers to the
driver. -/
theorem c3_return_signal_intercepted :
    (∀ fuel t st (keyword : Token) (vexp : Expr) rv st2,
      evaluate fuel t st vexp = (.ok rv, st2) →
      execute (fuel + 1) t st (.returnS keyword (some vexp))
        = (.error (.ret rv), st2))
    ∧ (∀ fuel t st (keyword : Token),
      execute (fuel + 1) t st (.returnS keyword none)
        = (.error (.ret .nil), st))
    ∧ (∀ fuel t st (f : UserFn) args v st2,
        executeBlock fuel t
            (withEnvs st
              (defineParams (envChild st.envs f.closure).2
                (envChild st.envs f.closure).1 f.declaration.params args))
            f.declaration.body (envChild st.envs f.closure).1
          = (.error (.ret v), st2) →
        callValue (fuel + 1) t st (.userFunction f) args = (.ok v, st2))
    ∧ (∀ fuel t st (f : UserFn) args err st2,
        executeBlock fuel t
            (withEnvs st
              (defineParams (envChild st.envs f.closure).2
                (envChild st.envs f.closure).1 f.declaration.params args))
            f.declaration.body (envChild st.envs f.closure).1
          = (.error err, st2) →
        (∀ v, err ≠ .ret v) →
        callValue (fuel + 1) t st (.userFunction f) args = (.error err, st2))
    ∧ (∀ fuel t st (f : UserFn) args st2,
        executeBlock fuel t
            (withEnvs st
              (defineParams (envChild st.envs f.closure).2
                (envChild st.envs f.closure).1 f.declaration.params args))
            f.declaration.body (envChild st.envs f.closure).1
          = (.ok (), st2) →
        callValue (fuel + 1) t st (.userFunction f) args = (.ok .nil, st2))
    ∧ (∀ rfuel ifuel t st stmts rst,
        resolveProgram rfuel stmts = .ok rst →
        ∀ v, (interpret ifuel t st stmts).1 ≠ some (.ret v)) := by
  refine ⟨?_, ?_, ?_, ?_, ?_, ?_⟩
  · intro fuel t st keyword vexp rv st2 h
    simp [execute, h]
  · intro fuel t st keyword
    simp [execute]
  · intro fuel t st f args v st2 hblock
    simp only [withEnvs, envChild] at hblock
    simp only [callValue, envChild]
    rw [hblock]
  · intro fuel t st f args err st2 hblock hne
    simp only [withEnvs, envChild] at hblock
    simp only [callValue, envChild]
    rw [hblock]
    cases err with
    | ret v => exact absurd rfl (hne v)
    | _ => rfl
  · intro fuel t st f args st2 hblock
    simp only [withEnvs, envChild] at hblock
    simp only [callValue, envChild]
    rw [hblock]
  · intro rfuel ifuel t st stmts rst hres v
    simp only [resolveProgram] at hres
    have hb : hasBareReturnList stmts = false :=
      (resolve_no_bare_return rfuel).2 initialRState stmts rst rfl hres
    exact interpret_no_ret_of_no_bare stmts ifuel t st hb v

/-- C3 witness: the resolver accepts `print 1;` and interpreting it does
not deliver the Return-signal. -/
theorem c3_witness :
    (interpret 5 [] (initialIState (.num 0)) [.print (.literal tkL1)]).1
      ≠ some (.ret .nil) :=
  c3_return_signal_intercepted.2.2.2.2.2 5 5 [] (initialIState (.num 0))
    [.print (.literal tkL1)] initialRState
    (by simp [resolveProgram, resolveStmts, resolveStmt, resolveExpr,
      initialRState, Bind.bind, Except.bind])
    .nil

end Lox
